import Mathlib

/-!
Verification of the schema-migration and backup-restoration core of the
celebration-website backend (files app.py, db_Setup.py,
backup_restoration.py).

The embedding models SQLite values, column affinities, tables and a
two-table store, the additive column migration run at boot
(migrate_database in db_Setup.py and run_migrations in app.py), and the
BackupRestoration class (should_restore, restore, create_backup,
get_status, auto_restore_backup_on_init) in backup_restoration.py.

Modelling conventions:
- a SQLite value is NULL, an integer, or a text string;
- a column has a name, an affinity (TEXT or INTEGER) and a default value;
- ALTER TABLE ADD COLUMN with a default appends the column and gives every
  existing row the default, as SQLite and PostgreSQL both do;
- a dump script is a list of statements; the SQL tokenizer is abstracted,
  so an INSERT statement carries its rendered value literals as a list of
  strings (the textual file joins them with commas; the tokenizer recovers
  the list since quotes are doubled inside literals), and a truncated or
  corrupted fragment is the distinguished malformed statement;
- Python exceptions are Except / Option values: a caught exception is a
  Bool or Option result, an uncaught one an Except.error.
-/

/-- A SQLite storage value: NULL, an integer, or a text string. -/
inductive Value where
  | null : Value
  | intV : Int → Value
  | strV : String → Value
deriving DecidableEq, Repr

/-- Column affinity: the memories and messages tables use TEXT and INTEGER. -/
inductive Affinity where
  | text : Affinity
  | integer : Affinity
deriving DecidableEq, Repr

/-- A table column: name, affinity, and default value (NULL when none). -/
structure Column where
  name : String
  affinity : Affinity
  dflt : Value
deriving DecidableEq, Repr

/-- A table: its columns and its rows; each row lists the values in column
order. -/
structure Table where
  cols : List Column
  rows : List (List Value)
deriving DecidableEq, Repr

/-- The column names of a table, in order (PRAGMA table_info names). -/
def Table.colNames (t : Table) : List String := t.cols.map (·.name)

/-- SELECT COUNT(*) of a table. -/
def Table.rowCount (t : Table) : Nat := t.rows.length

/-- ALTER TABLE ADD COLUMN name affinity DEFAULT dflt: appends the column
and gives the default to every existing row (SQLite applies a constant
default retroactively; PostgreSQL 11+ likewise). -/
def Table.addColumn (t : Table) (name : String) (aff : Affinity) (dflt : Value) : Table :=
  { cols := t.cols ++ [{ name := name, affinity := aff, dflt := dflt }],
    rows := t.rows.map (fun r => r ++ [dflt]) }

/-- The desired columns of the migration, from the columns_to_add list in
db_Setup.py line 22 and app.py line 200: storage_type TEXT with default
cloudinary, file_size INTEGER with no default. -/
def columns_to_add : List (String × Affinity × Value) :=
  [("storage_type", Affinity.text, Value.strV "cloudinary"),
   ("file_size", Affinity.integer, Value.null)]

/-- One iteration of the migration loop (db_Setup.py lines 27 to 36 and
app.py lines 208 to 217): if the column name is absent from the live
schema, ALTER TABLE memories ADD COLUMN; otherwise skip. The pair carries
the table so far and the reversed list of names added so far. -/
def migStep (acc : Table × List String) (spec : String × Affinity × Value) : Table × List String :=
  if spec.1 ∈ acc.1.colNames then acc
  else (acc.1.addColumn spec.1 spec.2.1 spec.2.2, acc.2 ++ [spec.1])

/-- migrate_database in db_Setup.py lines 9 to 47: read the live columns of
memories, add each missing desired column, commit once at the end.
Returns the final table and the list of column names added. -/
def migrate_database (t : Table) : Table × List String :=
  columns_to_add.foldl migStep (t, [])

/-- The table after one migration run. -/
def applyMig (t : Table) : Table := (migrate_database t).1

/-- The names added by one migration run. -/
def addedMig (t : Table) : List String := (migrate_database t).2

/-- Running the migration n times in sequence. -/
def applyMigN (n : Nat) (t : Table) : Table := applyMig^[n] t

/-! ## Value literals of the dump file

create_backup (backup_restoration.py lines 179 to 199) renders each value
as NULL when it is None and otherwise as a quoted literal of str(val) with
every single quote doubled. Restoration parses the literals back and the
store applies column affinity: INTEGER affinity turns an integer-looking
text into an integer, TEXT affinity turns an integer into its decimal
text, as SQLite type affinity does on insert. -/

/-- The single-quote character, written by its code point. -/
def sqc : Char := Char.ofNat 39

/-- The decimal digit character for d (callers pass d < 10). -/
def decDigit (d : Nat) : Char :=
  if d = 0 then '0' else if d = 1 then '1' else if d = 2 then '2'
  else if d = 3 then '3' else if d = 4 then '4' else if d = 5 then '5'
  else if d = 6 then '6' else if d = 7 then '7' else if d = 8 then '8'
  else '9'

/-- The value of a decimal digit character, none for other characters. -/
def decVal (c : Char) : Option Nat :=
  if c = '0' then some 0 else if c = '1' then some 1
  else if c = '2' then some 2 else if c = '3' then some 3
  else if c = '4' then some 4 else if c = '5' then some 5
  else if c = '6' then some 6 else if c = '7' then some 7
  else if c = '8' then some 8 else if c = '9' then some 9 else none

/-- Decimal representation of a natural number, most significant digit
first: the model of the Python str function on a nonnegative int. -/
def natRepr (n : Nat) : List Char :=
  if n < 10 then [decDigit n]
  else natRepr (n / 10) ++ [decDigit (n % 10)]
termination_by n
decreasing_by exact Nat.div_lt_self (by omega) (by omega)

/-- Decimal representation of an integer: the model of Python str on int. -/
def intRepr (i : Int) : List Char :=
  if i < 0 then '-' :: natRepr i.natAbs else natRepr i.toNat

/-- Parse a run of decimal digits, accumulating left to right. -/
def parseNatAux (acc : Nat) : List Char → Option Nat
  | [] => some acc
  | c :: cs =>
    match decVal c with
    | some d => parseNatAux (10 * acc + d) cs
    | none => none

/-- Parse a nonempty run of decimal digits. -/
def parseNat (cs : List Char) : Option Nat :=
  if cs.isEmpty then none else parseNatAux 0 cs

/-- Parse an optionally negated decimal integer: the model of the lossless
integer conversion SQLite applies to text under INTEGER affinity. -/
def parseInt (cs : List Char) : Option Int :=
  match cs with
  | [] => none
  | c :: rest =>
    if c = '-' then (parseNat rest).map (fun n => -(n : Int))
    else (parseNat (c :: rest)).map (fun n => (n : Int))

/-- Double every single quote: the model of
str(val).replace(chr(39), chr(39) * 2) in create_backup. -/
def escapeChars (cs : List Char) : List Char :=
  match cs with
  | [] => []
  | c :: rest =>
    if c = sqc then sqc :: sqc :: escapeChars rest else c :: escapeChars rest

/-- Read the body of a quoted SQL literal up to and including its closing
quote, undoing the quote doubling; none on an unterminated or malformed
body (the model of the SQLite tokenizer on quoted literals). -/
def parseInner (cs : List Char) : Option (List Char) :=
  match cs with
  | [] => none
  | c :: rest =>
    if c = sqc then
      match rest with
      | [] => some []
      | c2 :: rest2 =>
        if c2 = sqc then (parseInner rest2).map (fun l => sqc :: l)
        else none
    else (parseInner rest).map (fun l => c :: l)

/-- Render one value as create_backup does (backup_restoration.py lines
180 to 183 and 195 to 198): NULL for None, otherwise a quoted literal of
str(val) with quotes doubled. -/
def renderLit (v : Value) : List Char :=
  match v with
  | Value.null => ['N', 'U', 'L', 'L']
  | Value.strV s => sqc :: (escapeChars s.data ++ [sqc])
  | Value.intV i => sqc :: (escapeChars (intRepr i) ++ [sqc])

/-- Parse one rendered literal back into a value: the NULL keyword, a
quoted text literal, or a bare integer literal. -/
def parseLit (cs : List Char) : Option Value :=
  if cs = ['N', 'U', 'L', 'L'] then some Value.null
  else
    match cs with
    | [] => none
    | c :: rest =>
      if c = sqc then (parseInner rest).map (fun l => Value.strV (String.mk l))
      else (parseInt cs).map Value.intV

/-- SQLite type affinity applied to a value on insertion into a column:
INTEGER affinity converts losslessly integer-looking text to an integer,
TEXT affinity converts a number to its text form, NULL passes through. -/
def applyAffinity (a : Affinity) (v : Value) : Value :=
  match a, v with
  | _, Value.null => Value.null
  | Affinity.integer, Value.intV i => Value.intV i
  | Affinity.integer, Value.strV s =>
    match parseInt s.data with
    | some i => Value.intV i
    | none => Value.strV s
  | Affinity.text, Value.intV i => Value.strV (String.mk (intRepr i))
  | Affinity.text, Value.strV s => Value.strV s

/-- A value already in the storage class its column affinity produces:
what any value inserted through the SQL layer satisfies. -/
def fitsAff (a : Affinity) (v : Value) : Prop := applyAffinity a v = v

instance (a : Affinity) (v : Value) : Decidable (fitsAff a v) := by
  unfold fitsAff
  infer_instance

/-! ## Rows, inserts, and the two-table store -/

/-- First value bound to a name in an association list of column values. -/
def findVal (n : String) : List (String × Value) → Option Value
  | [] => none
  | p :: rest => if p.1 = n then some p.2 else findVal n rest

/-- Index of the column with the given name. -/
def colIdx (name : String) : List Column → Option Nat
  | [] => none
  | c :: rest => if c.name = name then some 0 else (colIdx name rest).map (· + 1)

/-- The stored row an INSERT produces: for each declared column, the value
supplied for its name if any, else the column default, pushed through the
column affinity (SQLite semantics of INSERT with a column list). -/
def buildRow (cols : List Column) (pairs : List (String × Value)) : List Value :=
  cols.map (fun c => applyAffinity c.affinity ((findVal c.name pairs).getD c.dflt))

/-- INSERT one row given as name-value pairs. -/
def Table.insertPairs (t : Table) (pairs : List (String × Value)) : Table :=
  { t with rows := t.rows ++ [buildRow t.cols pairs] }

/-- Read the cell of row i at the column with the given name. -/
def Table.getCell (t : Table) (i : Nat) (name : String) : Option Value :=
  match colIdx name t.cols with
  | none => none
  | some j =>
    match t.rows[i]? with
    | none => none
    | some row => row[j]?

/-- The two content tables of celebration.db that backup and restoration
touch. -/
structure Store where
  messages : Table
  memories : Table
deriving DecidableEq, Repr

/-- Both content tables have zero rows. -/
def Store.isEmptyData (s : Store) : Bool :=
  s.messages.rowCount = 0 && s.memories.rowCount = 0

/-! ## Dump scripts and their execution

A dump file is a sequence of SQL statements. The SQL text and tokenizer
are abstracted: an INSERT statement carries the target table name, its
column-name list and its rendered value literals (create_backup joins the
literals with commas; since quotes are doubled inside literals the
tokenizer recovers exactly this list). A fragment that does not parse
as a statement, such as the tail left by a mid-statement truncation or
corruption, is the malformed statement, which always raises. -/

inductive Stmt where
  | beginTxn : Stmt
  | commitTxn : Stmt
  | insertStmt : String → List String → List (List Char) → Stmt
  | malformed : Stmt
deriving DecidableEq, Repr

/-- A dump script: the parsed statement sequence of the dump file. -/
abbrev Script := List Stmt

/-- The filesystem: path to dump-script contents, none when absent. -/
abbrev FS := String → Option Script

/-- Parse every literal of a VALUES list; none if any fails. -/
def parseLits : List (List Char) → Option (List Value)
  | [] => some []
  | l :: ls =>
    match parseLit l with
    | some v => (parseLits ls).map (fun vs => v :: vs)
    | none => none

/-- Execute one INSERT against the store: parse every literal, pair the
values with the named columns, and build the stored row for the named
table; none models a SQL error (unknown table, arity mismatch, bad
literal). -/
def execInsert (s : Store) (tbl : String) (cols : List String) (lits : List (List Char)) :
    Option Store :=
  if cols.length ≠ lits.length then none
  else
    match parseLits lits with
    | none => none
    | some vals =>
      if tbl = "messages" then some { s with messages := s.messages.insertPairs (cols.zip vals) }
      else if tbl = "memories" then some { s with memories := s.memories.insertPairs (cols.zip vals) }
      else none

/-- Connection state while a script runs: the durable store as of the last
commit, the working store the connection sees, and whether an explicit
transaction is open. sqlite3 executescript commits any pending work first,
so scripts start with no transaction open; statements outside a
transaction auto-commit, BEGIN opens a transaction, COMMIT makes the
working store durable, and an error leaves the open transaction to be
rolled back when the boot connection closes. -/
structure ConnState where
  committed : Store
  current : Store
  inTxn : Bool
deriving DecidableEq, Repr

/-- Execute one statement; none models a raised sqlite3 error. -/
def execStmt (cs : ConnState) : Stmt → Option ConnState
  | Stmt.beginTxn =>
    if cs.inTxn then none else some { cs with inTxn := true }
  | Stmt.commitTxn =>
    if cs.inTxn then some ⟨cs.current, cs.current, false⟩ else none
  | Stmt.insertStmt t c l =>
    match execInsert cs.current t c l with
    | some s' =>
      some { committed := if cs.inTxn then cs.committed else s', current := s', inTxn := cs.inTxn }
    | none => none
  | Stmt.malformed => none

/-- Run a script statement by statement, stopping at the first error:
the model of cursor.executescript on the dump text. Returns whether the
whole script ran and the final connection state. -/
def runScript (cs : ConnState) : Script → Bool × ConnState
  | [] => (true, cs)
  | st :: rest =>
    match execStmt cs st with
    | some cs' => runScript cs' rest
    | none => (false, cs)

/-! ## BackupRestoration -/

/-- The state of a BackupRestoration object (backup_restoration.py lines
21 to 32): both paths, the restored-record counter, and the cached
existence of the backup file, computed once at construction. -/
structure BackupRestoration where
  db_path : String
  backup_path : String
  restored_count : Nat
  backup_exists : Bool
deriving DecidableEq, Repr

/-- The constructor: os.path.exists(backup_path) is evaluated against the
filesystem as it is at construction time and cached. -/
def BackupRestoration.mkState (fs : FS) (db_path backup_path : String) : BackupRestoration :=
  { db_path := db_path, backup_path := backup_path, restored_count := 0,
    backup_exists := (fs backup_path).isSome }

/-- should_restore (lines 34 to 76): false when no backup was cached at
construction; false when the row-count queries raise (conn = none models
the raised exception, caught at line 74); false when either table has a
row; true otherwise. -/
def BackupRestoration.should_restore (b : BackupRestoration) (conn : Option Store) : Bool :=
  if !b.backup_exists then false
  else
    match conn with
    | none => false
    | some s =>
      if s.messages.rowCount > 0 || s.memories.rowCount > 0 then false else true

/-- The four exits of restore (lines 78 to 131), in source order: the
cached-flag guard, the FileNotFoundError handler, the general exception
handler, and the success path. -/
inductive RestoreOutcome where
  | skippedNoBackup : RestoreOutcome
  | fileNotFound : RestoreOutcome
  | execFailed : RestoreOutcome
  | restored : RestoreOutcome
deriving DecidableEq, Repr

/-- The boolean restore returns for each exit. -/
def RestoreOutcome.toBool : RestoreOutcome → Bool
  | RestoreOutcome.restored => true
  | _ => false

/-- restore (lines 78 to 131): guard on the cached flag, read the dump
file from the current filesystem, run it with executescript, commit, then
count rows and record messages + memories into restored_count. An
exception from executescript is caught and restore returns False; the
open transaction is then rolled back when the boot connection closes, so
the store the rest of the system sees is the committed part. -/
def BackupRestoration.restore (b : BackupRestoration) (fs : FS) (store : Store) :
    RestoreOutcome × BackupRestoration × Store :=
  if !b.backup_exists then (RestoreOutcome.skippedNoBackup, b, store)
  else
    match fs b.backup_path with
    | none => (RestoreOutcome.fileNotFound, b, store)
    | some script =>
      let r := runScript ⟨store, store, false⟩ script
      if r.1 then
        let final := r.2.current
        let cnt := final.messages.rowCount + final.memories.rowCount
        (RestoreOutcome.restored, { b with restored_count := cnt }, final)
      else (RestoreOutcome.execFailed, b, r.2.committed)

/-- The status dictionary of get_status (lines 133 to 145). -/
structure RestorationStatus where
  backup_file_exists : Bool
  backup_path : String
  records_restored : Nat
  database_path : String
deriving DecidableEq, Repr

/-- get_status (lines 133 to 145). -/
def BackupRestoration.get_status (b : BackupRestoration) : RestorationStatus :=
  { backup_file_exists := b.backup_exists, backup_path := b.backup_path,
    records_restored := b.restored_count, database_path := b.db_path }

/-- The try block of auto_restore_backup_on_init (lines 226 to 238):
raises when sqlite3.connect raises (conn = none), otherwise runs the
should_restore / restore sequence. -/
def autoRestoreBody (fs : FS) (conn : Option Store) (r : BackupRestoration) :
    Except String (BackupRestoration × Store) :=
  match conn with
  | none => Except.error "connect failed"
  | some store =>
    if r.should_restore (some store) then
      let out := r.restore fs store
      Except.ok (out.2.1, out.2.2)
    else Except.ok (r, store)

/-- auto_restore_backup_on_init (lines 212 to 243): construct the
BackupRestoration, run the try block, catch any exception, and always
return the restoration object; the store slot is none when the
connection never opened. -/
def auto_restore_backup_on_init (fs : FS) (conn : Option Store) (db_path backup_path : String) :
    Except String (BackupRestoration × Option Store) :=
  let r := BackupRestoration.mkState fs db_path backup_path
  match autoRestoreBody fs conn r with
  | Except.ok (r', s) => Except.ok (r', some s)
  | Except.error _ => Except.ok (r, none)

/-- Whether an Except value is an uncaught exception. -/
def raises {α : Type} (e : Except String α) : Bool :=
  match e with
  | Except.error _ => true
  | Except.ok _ => false

/-! ## run_migrations of app.py -/

/-- The loop state of run_migrations (app.py lines 183 to 229): the
memories table, the columns added, the migration_applied flag, and the
number of db.commit() calls so far. -/
structure MigState where
  table : Table
  added : List String
  applied : Bool
  commits : Nat
deriving DecidableEq, Repr

/-- One iteration of the loop at app.py lines 208 to 217: a missing
column is added and sets migration_applied; the loop body never commits.
A column add that raises is reported and skipped (lines 214 to 215), and
in the model an ALTER on an absent column succeeds. -/
def runMigStep (s : MigState) (spec : String × Affinity × Value) : MigState :=
  if spec.1 ∈ s.table.colNames then s
  else
    { table := s.table.addColumn spec.1 spec.2.1 spec.2.2,
      added := s.added ++ [spec.1], applied := true, commits := s.commits }

/-- The migration loop over the declared columns. -/
def runMigLoop (t : Table) : MigState :=
  columns_to_add.foldl runMigStep { table := t, added := [], applied := false, commits := 0 }

/-- The state after the loop and the final conditional commit at app.py
lines 219 to 223: one commit at the end when migration_applied, none
otherwise. -/
def runMigReport (t : Table) : MigState :=
  let s := runMigLoop t
  if s.applied then { s with commits := s.commits + 1 } else s

/-- The two ways run_migrations returns: the completed report, or the
exception handler at app.py lines 228 to 229 that prints a warning. -/
inductive MigOutcome where
  | completed : MigState → MigOutcome
  | warned : String → MigOutcome
deriving DecidableEq, Repr

/-- The try block of run_migrations: reading the live schema of memories
raises when the store is unreachable (db = none), and the raised error
propagates out of the block. -/
def runMigBody (db : Option Table) : Except String MigState :=
  match db with
  | none => Except.error "could not read live schema"
  | some t => Except.ok (runMigReport t)

/-- run_migrations (app.py lines 183 to 229): the whole body sits in a
try / except Exception handler, so every raised error is caught and
turned into a printed warning; the function itself never raises. -/
def run_migrations (db : Option Table) : Except String MigOutcome :=
  match runMigBody db with
  | Except.ok s => Except.ok (MigOutcome.completed s)
  | Except.error e => Except.ok (MigOutcome.warned e)

/-- The migration acts only on the memories table of the store: the only
statements migrate_database and run_migrations execute are PRAGMA or
information_schema reads and ALTER TABLE memories ADD COLUMN. -/
def migrateStore (s : Store) : Store × List String :=
  (⟨s.messages, applyMig s.memories⟩, addedMig s.memories)

/-! ## create_backup -/

/-- The created_at cell of a row, NULL when absent: the sort key of the
ORDER BY created_at DESC reads in create_backup. -/
def createdAtCell (cols : List Column) (row : List Value) : Value :=
  match colIdx "created_at" cols with
  | none => Value.null
  | some j => row[j]?.getD Value.null

/-- SQLite ordering of two values: NULL before numbers before text,
numbers by value, text bytewise. -/
def valLe (a b : Value) : Bool :=
  match a, b with
  | Value.null, _ => true
  | Value.intV _, Value.null => false
  | Value.intV i, Value.intV j => decide (i ≤ j)
  | Value.intV _, Value.strV _ => true
  | Value.strV _, Value.null => false
  | Value.strV _, Value.intV _ => false
  | Value.strV s, Value.strV t => decide (s ≤ t)

/-- SELECT * FROM tbl ORDER BY created_at DESC. -/
def orderByCreatedAtDesc (t : Table) : List (List Value) :=
  t.rows.mergeSort (fun r1 r2 => valLe (createdAtCell t.cols r2) (createdAtCell t.cols r1))

/-- The INSERT statement create_backup emits for one row: the column
names from PRAGMA table_info and one rendered literal per value. -/
def rowToInsert (tbl : String) (cols : List Column) (row : List Value) : Stmt :=
  Stmt.insertStmt tbl (cols.map (·.name)) (row.map renderLit)

/-- The statement sequence create_backup writes (backup_restoration.py
lines 167 to 201): BEGIN TRANSACTION, one INSERT per messages row in
created_at-descending order, one INSERT per memories row likewise, then
COMMIT. The leading SQL comment lines are not statements. -/
def createBackupScript (s : Store) : Script :=
  Stmt.beginTxn
    :: ((orderByCreatedAtDesc s.messages).map (rowToInsert "messages" s.messages.cols)
      ++ (orderByCreatedAtDesc s.memories).map (rowToInsert "memories" s.memories.cols)
      ++ [Stmt.commitTxn])

/-- A truncated or corrupted dump: the first k whole statements survive
and the next statement is cut or garbled into an unparsable fragment. -/
def truncateMid (script : Script) (k : Nat) : Script :=
  script.take k ++ [Stmt.malformed]

/-! ## Well-formed tables -/

/-- Each value of the row sits in the storage class of its column, and
the row is aligned with the columns: what holds of any row that entered
the table through SQL inserts. -/
def rowFits : List Column → List Value → Bool
  | [], [] => true
  | c :: cs, v :: vs => decide (fitsAff c.affinity v) && rowFits cs vs
  | _, _ => false

/-- A well-formed table: distinct column names and rows aligned with the
columns, each value in its column storage class. -/
def Table.wf (t : Table) : Prop :=
  t.colNames.Nodup ∧ ∀ r ∈ t.rows, rowFits t.cols r = true

/-- A freshly initialized empty store with the same schema. -/
def emptyOf (s : Store) : Store :=
  ⟨⟨s.messages.cols, []⟩, ⟨s.memories.cols, []⟩⟩

/-! ## Concrete schemas for witnesses

The sqlite messages and memories schemas of celebration.db; TIMESTAMP
has NUMERIC affinity, modelled like INTEGER affinity (both convert
integer-looking text and leave timestamp text alone). -/

def messagesCols : List Column :=
  [⟨"id", Affinity.integer, Value.null⟩,
   ⟨"name", Affinity.text, Value.null⟩,
   ⟨"relationship", Affinity.text, Value.null⟩,
   ⟨"message", Affinity.text, Value.null⟩,
   ⟨"created_at", Affinity.integer, Value.null⟩]

def memoriesColsOld : List Column :=
  [⟨"id", Affinity.integer, Value.null⟩,
   ⟨"name", Affinity.text, Value.null⟩,
   ⟨"caption", Affinity.text, Value.null⟩,
   ⟨"image_url", Affinity.text, Value.null⟩,
   ⟨"cloudinary_id", Affinity.text, Value.null⟩,
   ⟨"type", Affinity.text, Value.strV "photo"⟩,
   ⟨"created_at", Affinity.integer, Value.null⟩]

def memoriesColsNew : List Column :=
  memoriesColsOld ++
  [⟨"storage_type", Affinity.text, Value.strV "cloudinary"⟩,
   ⟨"file_size", Affinity.integer, Value.null⟩]


/-- The value a rendered literal parses back to before affinity is
applied: integers come back as their decimal text, everything else is
itself. -/
def litVal (v : Value) : Value :=
  match v with
  | Value.intV i => Value.strV (String.mk (intRepr i))
  | x => x

/-! ## Concrete fixtures -/

/-- A one-character string holding a single quote. -/
def quoteStr : String := String.mk [sqc]

/-- A filesystem with exactly one file. -/
def fsWith (bp : String) (s : Script) : FS := fun p => if p = bp then some s else none

/-- A filesystem with no files. -/
def fsNone : FS := fun _ => none

def sampleMessages : Table :=
  ⟨messagesCols,
   [[Value.intV 1, Value.strV ("O" ++ quoteStr ++ "Brien"), Value.null,
     Value.strV "hello", Value.strV "2024-01-02 03:04:05"]]⟩

def sampleMemories : Table :=
  ⟨memoriesColsNew,
   [[Value.intV 2, Value.strV "ann", Value.null, Value.strV "http", Value.null,
     Value.strV "photo", Value.strV "2024-01-01 00:00:00", Value.strV "cloudinary",
     Value.intV 123]]⟩

def sampleSrc : Store := ⟨sampleMessages, sampleMemories⟩

def sampleEmptyStore : Store := ⟨⟨messagesCols, []⟩, ⟨memoriesColsNew, []⟩⟩

def seededStore : Store :=
  ⟨⟨messagesCols, [[Value.intV 1, Value.strV "a", Value.null, Value.strV "m", Value.null]]⟩,
   ⟨memoriesColsNew, []⟩⟩

def oldMemTable : Table :=
  ⟨memoriesColsOld,
   [[Value.intV 1, Value.strV "bob", Value.null, Value.strV "url", Value.null,
     Value.strV "photo", Value.strV "2024-01-01 00:00:00"]]⟩

def samplePairs : List (String × Value) :=
  [("name", Value.strV "carl"), ("image_url", Value.strV "u2")]

/-! ## Theorems -/

theorem colNames_addColumn (t : Table) (n : String) (a : Affinity) (d : Value) :
    (t.addColumn n a d).colNames = t.colNames ++ [n] := by
  simp [Table.addColumn, Table.colNames]

theorem rowCount_addColumn (t : Table) (n : String) (a : Affinity) (d : Value) :
    (t.addColumn n a d).rowCount = t.rowCount := by
  simp [Table.addColumn, Table.rowCount]

theorem mem_colNames_applyMig (t : Table) :
    "storage_type" ∈ (applyMig t).colNames ∧ "file_size" ∈ (applyMig t).colNames := by
  simp only [applyMig, migrate_database, columns_to_add, List.foldl, migStep]
  by_cases h1 : "storage_type" ∈ t.colNames <;>
    simp only [h1, if_true, if_false, reduceIte] <;>
    [skip; rw [colNames_addColumn]] <;>
    by_cases h2 : "file_size" ∈ t.colNames <;>
    by_cases h2' : "file_size" ∈ t.colNames ++ ["storage_type"] <;>
    simp_all [colNames_addColumn]

theorem applyMig_fixed (t : Table)
    (h1 : "storage_type" ∈ t.colNames) (h2 : "file_size" ∈ t.colNames) :
    applyMig t = t ∧ addedMig t = [] := by
  simp [applyMig, addedMig, migrate_database, columns_to_add, List.foldl, migStep, h1, h2]

theorem applyMig_applyMig (t : Table) : applyMig (applyMig t) = applyMig t :=
  (applyMig_fixed (applyMig t) (mem_colNames_applyMig t).1 (mem_colNames_applyMig t).2).1

theorem addedMig_applyMig (t : Table) : addedMig (applyMig t) = [] :=
  (applyMig_fixed (applyMig t) (mem_colNames_applyMig t).1 (mem_colNames_applyMig t).2).2

theorem decVal_decDigit (d : Nat) (h : d < 10) : decVal (decDigit d) = some d := by
  interval_cases d <;> rfl

theorem decDigit_ne_sqc (d : Nat) : decDigit d ≠ sqc := by
  unfold decDigit
  repeat' split
  all_goals decide

theorem decDigit_ne_minus (d : Nat) : decDigit d ≠ '-' := by
  unfold decDigit
  repeat' split
  all_goals decide

theorem parseNatAux_append (acc : Nat) (xs ys : List Char) :
    parseNatAux acc (xs ++ ys) =
      match parseNatAux acc xs with
      | some a => parseNatAux a ys
      | none => none := by
  induction xs generalizing acc with
  | nil => rfl
  | cons c cs ih =>
      simp only [List.cons_append, parseNatAux]
      cases decVal c with
      | some d => exact ih (10 * acc + d)
      | none => rfl

theorem natRepr_ne_nil (n : Nat) : natRepr n ≠ [] := by
  unfold natRepr
  split <;> simp

theorem parseNatAux_natRepr (n : Nat) :
    ∀ acc, parseNatAux acc (natRepr n) = some (acc * 10 ^ (natRepr n).length + n) := by
  induction n using natRepr.induct with
  | case1 n h =>
      intro acc
      rw [natRepr, if_pos h]
      simp [parseNatAux, decVal_decDigit n h]
      omega
  | case2 n h ih =>
      intro acc
      rw [natRepr, if_neg h]
      rw [parseNatAux_append, ih acc]
      have hd : n % 10 < 10 := Nat.mod_lt _ (by omega)
      simp [parseNatAux, decVal_decDigit _ hd, pow_succ]
      ring_nf
      omega

theorem parseNat_natRepr (n : Nat) : parseNat (natRepr n) = some n := by
  rw [parseNat, if_neg, parseNatAux_natRepr n 0]
  · simp
  · simp [natRepr_ne_nil n]

theorem mem_natRepr_digit (n : Nat) : ∀ c ∈ natRepr n, ∃ d, c = decDigit d := by
  induction n using natRepr.induct with
  | case1 n h =>
      rw [natRepr, if_pos h]
      intro c hc
      simp at hc
      exact ⟨n, hc⟩
  | case2 n h ih =>
      rw [natRepr, if_neg h]
      intro c hc
      rcases List.mem_append.mp hc with h1 | h2
      · exact ih c h1
      · simp at h2
        exact ⟨n % 10, h2⟩

theorem natRepr_head_not_minus (n : Nat) :
    ∀ c cs, natRepr n = c :: cs → c ≠ '-' := by
  intro c cs h
  have : c ∈ natRepr n := by rw [h]; exact List.mem_cons_self _ _
  obtain ⟨d, hd⟩ := mem_natRepr_digit n c this
  rw [hd]
  exact decDigit_ne_minus d

theorem parseInt_intRepr (i : Int) : parseInt (intRepr i) = some i := by
  by_cases hneg : i < 0
  · rw [intRepr, if_pos hneg]
    have habs : ((i.natAbs : Nat) : Int) = -i := Int.ofNat_natAbs_of_nonpos (le_of_lt hneg)
    simp [parseInt, parseNat_natRepr, habs]
  · rw [intRepr, if_neg hneg]
    obtain ⟨c, cs, hcs⟩ : ∃ c cs, natRepr i.toNat = c :: cs := by
      cases h : natRepr i.toNat with
      | nil => exact absurd h (natRepr_ne_nil _)
      | cons c cs => exact ⟨c, cs, rfl⟩
    rw [hcs]
    have htn : ((i.toNat : Nat) : Int) = i := Int.toNat_of_nonneg (by omega)
    simp [parseInt, if_neg (natRepr_head_not_minus i.toNat c cs hcs), ← hcs,
      parseNat_natRepr, htn]

theorem parseInner_escapeChars (s : List Char) :
    parseInner (escapeChars s ++ [sqc]) = some s := by
  induction s with
  | nil => simp [escapeChars, parseInner]
  | cons c tl ih =>
      by_cases hc : c = sqc
      · subst hc
        have h1 : escapeChars (sqc :: tl) ++ [sqc] = sqc :: sqc :: (escapeChars tl ++ [sqc]) := by
          rw [escapeChars, if_pos rfl]
          rfl
        rw [h1]
        simp [parseInner, ih]
      · have h1 : escapeChars (c :: tl) ++ [sqc] = c :: (escapeChars tl ++ [sqc]) := by
          rw [escapeChars, if_neg hc]
          rfl
        rw [h1]
        rcases hmt : escapeChars tl ++ [sqc] with _ | ⟨m, ms⟩
        · simp at hmt
        · rw [parseInner.eq_def]
          simp only [hc, if_false, ite_false]
          rw [← hmt, ih]
          rfl

theorem escapeChars_of_no_quote (cs : List Char) (h : ∀ c ∈ cs, c ≠ sqc) :
    escapeChars cs = cs := by
  induction cs with
  | nil => rfl
  | cons c tl ih =>
      rw [escapeChars, if_neg (h c (List.mem_cons_self _ _))]
      rw [ih (fun x hx => h x (List.mem_cons_of_mem _ hx))]

theorem mem_intRepr_ne_sqc (i : Int) : ∀ c ∈ intRepr i, c ≠ sqc := by
  intro c hc
  rw [intRepr] at hc
  split at hc
  · rcases List.mem_cons.mp hc with h | h
    · subst h; decide
    · obtain ⟨d, hd⟩ := mem_natRepr_digit _ c h
      rw [hd]; exact decDigit_ne_sqc d
  · obtain ⟨d, hd⟩ := mem_natRepr_digit _ c hc
    rw [hd]; exact decDigit_ne_sqc d

theorem escapeChars_intRepr (i : Int) : escapeChars (intRepr i) = intRepr i :=
  escapeChars_of_no_quote _ (mem_intRepr_ne_sqc i)

theorem renderLit_quoted_ne_null_lit (body : List Char) :
    sqc :: body ≠ ['N', 'U', 'L', 'L'] := by
  intro h
  have : sqc = 'N' := by injection h
  exact absurd this (by decide)

theorem parseLit_renderLit_null : parseLit (renderLit Value.null) = some Value.null := by
  rfl

theorem parseLit_renderLit_str (s : String) :
    parseLit (renderLit (Value.strV s)) = some (Value.strV s) := by
  rw [renderLit, parseLit, if_neg (renderLit_quoted_ne_null_lit _)]
  simp only [if_pos rfl, parseInner_escapeChars]
  cases s
  rfl

theorem parseLit_renderLit_int (i : Int) :
    parseLit (renderLit (Value.intV i)) = some (Value.strV (String.mk (intRepr i))) := by
  rw [renderLit, parseLit, if_neg (renderLit_quoted_ne_null_lit _)]
  have hpi : parseInner (intRepr i ++ [sqc]) = some (intRepr i) := by
    have h := parseInner_escapeChars (intRepr i)
    rwa [escapeChars_intRepr] at h
  simp [escapeChars_intRepr, hpi]

/-- Round trip of one value through the dump literal and the insertion
affinity of its column: values in their column storage class come back
unchanged; in particular NULL and the empty string stay distinct. -/
theorem value_roundTrip (a : Affinity) (v : Value) (h : fitsAff a v) :
    (parseLit (renderLit v)).map (applyAffinity a) = some v := by
  cases v with
  | null =>
      rw [parseLit_renderLit_null]
      cases a <;> rfl
  | strV s =>
      rw [parseLit_renderLit_str]
      simpa using h
  | intV i =>
      rw [parseLit_renderLit_int]
      cases a with
      | text => exact absurd h (by simp [fitsAff, applyAffinity])
      | integer =>
          simp only [Option.map_some', applyAffinity]
          have : parseInt (String.mk (intRepr i)).data = some i := by
            show parseInt (intRepr i) = some i
            exact parseInt_intRepr i
          rw [this]

/-! ## Script execution lemmas -/

theorem runScript_append (cs : ConnState) (xs ys : Script) :
    runScript cs (xs ++ ys) =
      if (runScript cs xs).1 then runScript (runScript cs xs).2 ys else runScript cs xs := by
  induction xs generalizing cs with
  | nil => simp [runScript]
  | cons st rest ih =>
      cases h : execStmt cs st with
      | some cs' =>
          simp only [List.cons_append, runScript, h]
          exact ih cs'
      | none => simp [runScript, h]

theorem execStmt_no_commit_inTxn (cs : ConnState) (st : Stmt) (cs' : ConnState)
    (hIn : cs.inTxn = true) (hst : st ≠ Stmt.commitTxn) (h : execStmt cs st = some cs') :
    cs'.committed = cs.committed ∧ cs'.inTxn = true := by
  cases st with
  | beginTxn => simp [execStmt, hIn] at h
  | commitTxn => exact absurd rfl hst
  | insertStmt t c l =>
      simp only [execStmt] at h
      cases hi : execInsert cs.current t c l with
      | some s' =>
          rw [hi] at h
          simp only [Option.some.injEq] at h
          rw [← h]
          simp [hIn]
      | none => rw [hi] at h; simp at h
  | malformed => simp [execStmt] at h

theorem runScript_no_commit (script : Script) : ∀ cs : ConnState,
    Stmt.commitTxn ∉ script → cs.inTxn = true →
    (runScript cs script).2.committed = cs.committed ∧ (runScript cs script).2.inTxn = true := by
  induction script with
  | nil => intro cs _ hIn; exact ⟨rfl, hIn⟩
  | cons st rest ih =>
      intro cs h hIn
      have hst : st ≠ Stmt.commitTxn := fun he => h (he ▸ List.mem_cons_self st rest)
      have hrest : Stmt.commitTxn ∉ rest := fun hm => h (List.mem_cons_of_mem _ hm)
      cases he : execStmt cs st with
      | some cs' =>
          obtain ⟨h1, h2⟩ := execStmt_no_commit_inTxn cs st cs' hIn hst he
          simp only [runScript, he]
          obtain ⟨h3, h4⟩ := ih cs' hrest h2
          exact ⟨h3.trans h1, h4⟩
      | none =>
          simp [runScript, he, hIn]

/-- C3. Atomic restore failure: a dump whose statement sequence opens a
transaction and then hits an unparsable fragment before any COMMIT, or
whose very first statement is already garbled, makes restore report
failure (False) and leaves the store exactly as it was; in particular an
empty store stays empty in both tables, never partially populated. -/
theorem restore_atomic_failure (b : BackupRestoration) (fs : FS) (store : Store)
    (pre post : Script)
    (hexists : b.backup_exists = true)
    (hdump : fs b.backup_path = some (Stmt.beginTxn :: (pre ++ Stmt.malformed :: post)) ∨
             fs b.backup_path = some (Stmt.malformed :: post))
    (hpre : Stmt.commitTxn ∉ pre)
    (hm1 : store.messages.rowCount = 0) (hm2 : store.memories.rowCount = 0) :
    b.restore fs store = (RestoreOutcome.execFailed, b, store) ∧
    (b.restore fs store).2.2.messages.rowCount = 0 ∧
    (b.restore fs store).2.2.memories.rowCount = 0 ∧
    RestoreOutcome.toBool (b.restore fs store).1 = false := by
  have hmain : b.restore fs store = (RestoreOutcome.execFailed, b, store) := by
    rcases hdump with hd | hd
    · have hstep : runScript (⟨store, store, false⟩ : ConnState)
          (Stmt.beginTxn :: (pre ++ Stmt.malformed :: post)) =
          runScript ⟨store, store, true⟩ (pre ++ Stmt.malformed :: post) := rfl
      have hnc := runScript_no_commit pre ⟨store, store, true⟩ hpre rfl
      have hok : (runScript (⟨store, store, false⟩ : ConnState)
            (Stmt.beginTxn :: (pre ++ Stmt.malformed :: post))).1 = false ∧
          (runScript (⟨store, store, false⟩ : ConnState)
            (Stmt.beginTxn :: (pre ++ Stmt.malformed :: post))).2.committed = store := by
        rw [hstep, runScript_append]
        by_cases hr : (runScript (⟨store, store, true⟩ : ConnState) pre).1
        · rw [if_pos hr]
          have hmal : runScript (runScript (⟨store, store, true⟩ : ConnState) pre).2
              (Stmt.malformed :: post) =
              (false, (runScript (⟨store, store, true⟩ : ConnState) pre).2) := rfl
          rw [hmal]
          exact ⟨rfl, hnc.1⟩
        · rw [if_neg hr]
          exact ⟨Bool.eq_false_iff.mpr hr, hnc.1⟩
      unfold BackupRestoration.restore
      rw [hexists, hd]
      simp only [Bool.not_true, Bool.false_eq_true, if_false, hok.1, hok.2]
    · have hok : runScript (⟨store, store, false⟩ : ConnState) (Stmt.malformed :: post) =
          (false, ⟨store, store, false⟩) := rfl
      unfold BackupRestoration.restore
      rw [hexists, hd]
      simp only [Bool.not_true, Bool.false_eq_true, if_false, hok]
  refine ⟨hmain, ?_, ?_, ?_⟩ <;> rw [hmain]
  · exact hm1
  · exact hm2
  · rfl

/-- C3 witness: a dump truncated right after BEGIN TRANSACTION against an
empty store: restore fails and both tables stay at zero rows. -/
theorem restore_atomic_failure_witness :
    (BackupRestoration.mkState (fsWith "backup.sql" [Stmt.beginTxn, Stmt.malformed])
        "celebration.db" "backup.sql").backup_exists = true ∧
    (BackupRestoration.mkState (fsWith "backup.sql" [Stmt.beginTxn, Stmt.malformed])
        "celebration.db" "backup.sql").restore
        (fsWith "backup.sql" [Stmt.beginTxn, Stmt.malformed]) sampleEmptyStore =
      (RestoreOutcome.execFailed,
       BackupRestoration.mkState (fsWith "backup.sql" [Stmt.beginTxn, Stmt.malformed])
         "celebration.db" "backup.sql",
       sampleEmptyStore) :=
  ⟨rfl,
   (restore_atomic_failure _ _ sampleEmptyStore [] []
     rfl
     (Or.inl (by rfl))
     (by simp)
     rfl rfl).1⟩

/-- The restoration object restore hands back differs from its input at
most in restored_count: paths and the cached existence flag are kept. -/
theorem restore_preserves (b : BackupRestoration) (fs : FS) (store : Store) :
    (b.restore fs store).2.1.backup_exists = b.backup_exists ∧
    (b.restore fs store).2.1.db_path = b.db_path ∧
    (b.restore fs store).2.1.backup_path = b.backup_path := by
  by_cases he : b.backup_exists = true
  · have hcond : ¬ ((!b.backup_exists) = true) := by simp [he]
    unfold BackupRestoration.restore
    rw [if_neg hcond]
    cases hf : fs b.backup_path with
    | none => exact ⟨rfl, rfl, rfl⟩
    | some script =>
        by_cases hr : (runScript ⟨store, store, false⟩ script).1 <;> simp [hr]
  · have he' : b.backup_exists = false := Bool.eq_false_iff.mpr he
    unfold BackupRestoration.restore
    simp [he']

/-- C2. Restore-guard: when either content table already has a row,
should_restore answers false and auto_restore_backup_on_init leaves the
store exactly as it was, whatever the filesystem holds at the dump path. -/
theorem restore_guard (fs : FS) (store : Store) (db bp : String)
    (h : store.messages.rowCount > 0 ∨ store.memories.rowCount > 0) :
    (BackupRestoration.mkState fs db bp).should_restore (some store) = false ∧
    auto_restore_backup_on_init fs (some store) db bp =
      Except.ok (BackupRestoration.mkState fs db bp, some store) := by
  have hs : (BackupRestoration.mkState fs db bp).should_restore (some store) = false := by
    unfold BackupRestoration.should_restore
    cases he : (BackupRestoration.mkState fs db bp).backup_exists
    · simp
    · rcases h with h | h <;> simp [h]
  have hbody : autoRestoreBody fs (some store) (BackupRestoration.mkState fs db bp) =
      Except.ok (BackupRestoration.mkState fs db bp, store) := by
    unfold autoRestoreBody
    simp [hs]
  refine ⟨hs, ?_⟩
  unfold auto_restore_backup_on_init
  simp [hbody]

/-- C2 witness: one seeded message row, dump file present: the guard
skips and the store is unchanged. -/
theorem restore_guard_witness :
    (seededStore.messages.rowCount > 0 ∨ seededStore.memories.rowCount > 0) ∧
    auto_restore_backup_on_init (fsWith "backup.sql" [Stmt.beginTxn, Stmt.commitTxn])
        (some seededStore) "celebration.db" "backup.sql" =
      Except.ok (BackupRestoration.mkState
        (fsWith "backup.sql" [Stmt.beginTxn, Stmt.commitTxn]) "celebration.db" "backup.sql",
        some seededStore) :=
  ⟨Or.inl (by decide),
   (restore_guard (fsWith "backup.sql" [Stmt.beginTxn, Stmt.commitTxn]) seededStore
     "celebration.db" "backup.sql" (Or.inl (by decide))).2⟩

/-- C9. The dump-file check happens once, at construction, and is cached:
the flag equals the existence of the path in the construction-time
filesystem, a missing flag short-circuits should_restore and restore for
every later filesystem, a set flag makes restore attempt the file under
every later filesystem, and restore never changes the flag. -/
theorem backup_exists_cached (fs0 fs1 fs2 : FS) (db bp : String) (conn : Option Store)
    (store1 store2 : Store) :
    (BackupRestoration.mkState fs0 db bp).backup_exists = (fs0 bp).isSome ∧
    ((fs0 bp).isSome = false →
      (BackupRestoration.mkState fs0 db bp).should_restore conn = false ∧
      (BackupRestoration.mkState fs0 db bp).restore fs1 store1 =
        (RestoreOutcome.skippedNoBackup, BackupRestoration.mkState fs0 db bp, store1)) ∧
    ((fs0 bp).isSome = true →
      ((BackupRestoration.mkState fs0 db bp).restore fs1 store1).1 ≠
          RestoreOutcome.skippedNoBackup ∧
      ((BackupRestoration.mkState fs0 db bp).restore fs2 store2).1 ≠
          RestoreOutcome.skippedNoBackup) ∧
    ((BackupRestoration.mkState fs0 db bp).restore fs1 store1).2.1.backup_exists =
      (BackupRestoration.mkState fs0 db bp).backup_exists := by
  refine ⟨rfl, ?_, ?_, (restore_preserves _ fs1 store1).1⟩
  · intro hnone
    have hflag : (BackupRestoration.mkState fs0 db bp).backup_exists = false := hnone
    constructor
    · unfold BackupRestoration.should_restore
      rw [hflag]
      simp
    · unfold BackupRestoration.restore
      rw [hflag]
      simp
  · intro hsome
    have key : ∀ (fsN : FS) (st : Store),
        ((BackupRestoration.mkState fs0 db bp).restore fsN st).1 ≠
          RestoreOutcome.skippedNoBackup := by
      intro fsN st
      have hflag : (BackupRestoration.mkState fs0 db bp).backup_exists = true := hsome
      have hcond : ¬ ((!(BackupRestoration.mkState fs0 db bp).backup_exists) = true) := by
        simp [hflag]
      unfold BackupRestoration.restore
      rw [if_neg hcond]
      cases hf : fsN bp with
      | none =>
          rw [show (BackupRestoration.mkState fs0 db bp).backup_path = bp from rfl, hf]
          simp
      | some script =>
          rw [show (BackupRestoration.mkState fs0 db bp).backup_path = bp from rfl, hf]
          by_cases hr : (runScript ⟨st, st, false⟩ script).1 <;> simp [hr]
    exact ⟨key fs1 store1, key fs2 store2⟩

/-- C9 witness: with the file present at construction, restore attempts
under a filesystem where the file has since been deleted, and the flag
is unchanged. -/
theorem backup_exists_cached_witness :
    (BackupRestoration.mkState (fsWith "backup.sql" [Stmt.beginTxn, Stmt.commitTxn])
        "celebration.db" "backup.sql").backup_exists = true ∧
    ((BackupRestoration.mkState (fsWith "backup.sql" [Stmt.beginTxn, Stmt.commitTxn])
        "celebration.db" "backup.sql").restore fsNone sampleEmptyStore).1 ≠
      RestoreOutcome.skippedNoBackup :=
  ⟨rfl,
   ((backup_exists_cached (fsWith "backup.sql" [Stmt.beginTxn, Stmt.commitTxn]) fsNone fsNone
      "celebration.db" "backup.sql" none sampleEmptyStore sampleEmptyStore).2.2.1
     (by decide)).1⟩

/-- C10. auto_restore_backup_on_init never lets an exception escape, and
always hands back a restoration object carrying both paths whose
get_status reports the cached dump existence, the restored-record count,
and the two paths. -/
theorem auto_restore_never_raises (fs : FS) (conn : Option Store) (db bp : String) :
    raises (auto_restore_backup_on_init fs conn db bp) = false ∧
    ∃ r s, auto_restore_backup_on_init fs conn db bp = Except.ok (r, s) ∧
      r.db_path = db ∧ r.backup_path = bp ∧ r.backup_exists = (fs bp).isSome ∧
      r.get_status = { backup_file_exists := (fs bp).isSome, backup_path := bp,
                       records_restored := r.restored_count, database_path := db } := by
  have main : ∃ r s, auto_restore_backup_on_init fs conn db bp = Except.ok (r, s) ∧
      r.db_path = db ∧ r.backup_path = bp ∧ r.backup_exists = (fs bp).isSome := by
    cases conn with
    | none =>
        refine ⟨BackupRestoration.mkState fs db bp, none, ?_, rfl, rfl, rfl⟩
        unfold auto_restore_backup_on_init autoRestoreBody
        simp
    | some store =>
        by_cases hsr : (BackupRestoration.mkState fs db bp).should_restore (some store) = true
        · have hbody : autoRestoreBody fs (some store) (BackupRestoration.mkState fs db bp) =
              Except.ok (((BackupRestoration.mkState fs db bp).restore fs store).2.1,
                ((BackupRestoration.mkState fs db bp).restore fs store).2.2) := by
            unfold autoRestoreBody
            simp [hsr]
          obtain ⟨h1, h2, h3⟩ :=
            restore_preserves (BackupRestoration.mkState fs db bp) fs store
          refine ⟨((BackupRestoration.mkState fs db bp).restore fs store).2.1,
            some ((BackupRestoration.mkState fs db bp).restore fs store).2.2,
            ?_, h2, h3, h1⟩
          unfold auto_restore_backup_on_init
          simp [hbody]
        · have hbody : autoRestoreBody fs (some store) (BackupRestoration.mkState fs db bp) =
              Except.ok (BackupRestoration.mkState fs db bp, store) := by
            unfold autoRestoreBody
            simp [hsr]
          refine ⟨BackupRestoration.mkState fs db bp, some store, ?_, rfl, rfl, rfl⟩
          unfold auto_restore_backup_on_init
          simp [hbody]
  obtain ⟨r, s, heq, hdb, hbp, hex⟩ := main
  refine ⟨by rw [heq]; rfl, r, s, heq, hdb, hbp, hex, ?_⟩
  unfold BackupRestoration.get_status
  rw [hdb, hbp, hex]

/-! ## Migration claims -/

/-- C5 counterexample: when reading the live schema of memories fails
(store unreachable), run_migrations does not propagate the error: its
try / except Exception handler catches it and the call returns normally
with a printed warning. -/
theorem run_migrations_catches_cex :
    raises (run_migrations none) = false ∧
    run_migrations none = Except.ok (MigOutcome.warned "could not read live schema") :=
  ⟨rfl, rfl⟩

/-- C5 amended: run_migrations never raises to its caller; a failure to
read the live schema is caught by the blanket except handler and reported
as a warning, and boot continues. -/
theorem run_migrations_never_raises :
    (∀ db : Option Table, raises (run_migrations db) = false) ∧
    run_migrations none = Except.ok (MigOutcome.warned "could not read live schema") := by
  refine ⟨?_, rfl⟩
  intro db
  cases db <;> rfl

/-- One migration loop step only appends column names, keeps the row
count, and never commits. -/
theorem migStep_props (acc : Table × List String) (spec : String × Affinity × Value) :
    (∃ ext, (migStep acc spec).1.colNames = acc.1.colNames ++ ext) ∧
    (migStep acc spec).1.rowCount = acc.1.rowCount := by
  unfold migStep
  by_cases h : spec.1 ∈ acc.1.colNames
  · rw [if_pos h]
    exact ⟨⟨[], by simp⟩, rfl⟩
  · rw [if_neg h]
    exact ⟨⟨[spec.1], colNames_addColumn _ _ _ _⟩, rowCount_addColumn _ _ _ _⟩

theorem applyMig_props (t : Table) :
    (∃ ext, (applyMig t).colNames = t.colNames ++ ext) ∧
    (applyMig t).rowCount = t.rowCount := by
  have h1 := migStep_props (t, []) ("storage_type", Affinity.text, Value.strV "cloudinary")
  have h2 := migStep_props (migStep (t, []) ("storage_type", Affinity.text, Value.strV "cloudinary"))
    ("file_size", Affinity.integer, Value.null)
  have heq : applyMig t =
      (migStep (migStep (t, []) ("storage_type", Affinity.text, Value.strV "cloudinary"))
        ("file_size", Affinity.integer, Value.null)).1 := rfl
  constructor
  · obtain ⟨e1, he1⟩ := h1.1
    obtain ⟨e2, he2⟩ := h2.1
    exact ⟨e1 ++ e2, by rw [heq, he2, he1, List.append_assoc]⟩
  · rw [heq, h2.2, h1.2]

/-- C7. Non-destructive migration: the messages table is untouched, every
memories column present before the run is present after it (nothing is
removed or renamed), and both row counts are unchanged. -/
theorem migration_non_destructive (s : Store) :
    (migrateStore s).1.messages = s.messages ∧
    (∀ n ∈ s.memories.colNames, n ∈ (migrateStore s).1.memories.colNames) ∧
    (migrateStore s).1.messages.rowCount = s.messages.rowCount ∧
    (migrateStore s).1.memories.rowCount = s.memories.rowCount := by
  refine ⟨rfl, ?_, rfl, ?_⟩
  · intro n hn
    obtain ⟨ext, hext⟩ := (applyMig_props s.memories).1
    show n ∈ (applyMig s.memories).colNames
    rw [hext]
    exact List.mem_append_left _ hn
  · exact (applyMig_props s.memories).2

/-- The run_migrations loop computes the same table and added list as
migrate_database: the two rewrites share the column diff. -/
theorem runMigLoop_eq (t : Table) :
    (runMigLoop t).table = applyMig t ∧ (runMigLoop t).added = addedMig t := by
  unfold runMigLoop applyMig addedMig migrate_database columns_to_add
  simp only [List.foldl]
  by_cases h1 : "storage_type" ∈ t.colNames
  · by_cases h2 : "file_size" ∈ t.colNames <;> simp [runMigStep, migStep, h1, h2]
  · by_cases h2 : "file_size" ∈
        (t.addColumn "storage_type" Affinity.text (Value.strV "cloudinary")).colNames <;>
      simp [runMigStep, migStep, h1, h2]

/-- The loop sets migration_applied exactly when it added a column, and
never commits inside the loop body. -/
theorem runMigLoop_props (t : Table) :
    ((runMigLoop t).applied = true ↔ (runMigLoop t).added ≠ []) ∧
    (runMigLoop t).commits = 0 := by
  unfold runMigLoop columns_to_add
  simp only [List.foldl]
  by_cases h1 : "storage_type" ∈ t.colNames
  · by_cases h2 : "file_size" ∈ t.colNames <;> simp [runMigStep, h1, h2]
  · by_cases h2 : "file_size" ∈
        (t.addColumn "storage_type" Affinity.text (Value.strV "cloudinary")).colNames <;>
      simp [runMigStep, h1, h2]

/-- C8. One commit at most, at the end: run_migrations completes with a
report whose applied flag is true exactly when a column was added, whose
commit count is 1 exactly then and 0 otherwise (already up to date), and
the loop itself never commits per column. -/
theorem migration_commit_once (t : Table) :
    run_migrations (some t) = Except.ok (MigOutcome.completed (runMigReport t)) ∧
    ((runMigReport t).applied = true ↔ (runMigReport t).added ≠ []) ∧
    (runMigReport t).commits ≤ 1 ∧
    ((runMigReport t).commits = 1 ↔ (runMigReport t).added ≠ []) ∧
    (runMigLoop t).commits = 0 := by
  obtain ⟨hiff, hc⟩ := runMigLoop_props t
  have hrep : runMigReport t =
      if (runMigLoop t).applied then
        { runMigLoop t with commits := (runMigLoop t).commits + 1 }
      else runMigLoop t := rfl
  refine ⟨rfl, ?_, ?_, ?_, hc⟩
  · rw [hrep]
    by_cases ha : (runMigLoop t).applied = true
    · rw [if_pos ha]
      simpa using hiff
    · rw [if_neg (by simpa using ha)]
      exact hiff
  · rw [hrep]
    by_cases ha : (runMigLoop t).applied = true
    · rw [if_pos ha]
      simp [hc]
    · rw [if_neg (by simpa using ha)]
      simp [hc]
  · rw [hrep]
    by_cases ha : (runMigLoop t).applied = true
    · rw [if_pos ha]
      simp [hc, hiff.mp ha]
    · rw [if_neg (by simpa using ha)]
      have hadded : (runMigLoop t).added = [] := by
        by_contra hne
        exact ha (hiff.mpr hne)
      simp [hc, hadded]

/-- C1. Migration is idempotent: N+1 runs of migrate_database give the
same memories table as one run, the run after the first adds no columns,
and the run_migrations loop is likewise a no-op on an already migrated
table. -/
theorem migration_idempotent (t : Table) (n : Nat) :
    applyMigN (n + 1) t = applyMigN 1 t ∧ addedMig (applyMigN 1 t) = [] ∧
    (runMigLoop (runMigLoop t).table).table = (runMigLoop t).table ∧
    (runMigLoop (runMigLoop t).table).added = [] := by
  refine ⟨?_, by simpa [applyMigN] using addedMig_applyMig t, ?_, ?_⟩
  · induction n with
    | zero => rfl
    | succ k ih =>
        have h : applyMigN (k + 1 + 1) t = applyMig (applyMigN (k + 1) t) := by
          simp [applyMigN, Function.iterate_succ_apply']
        rw [h, ih]
        simp [applyMigN, applyMig_applyMig]
  · rw [(runMigLoop_eq t).1, (runMigLoop_eq (applyMig t)).1]
    exact applyMig_applyMig t
  · rw [(runMigLoop_eq t).1, (runMigLoop_eq (applyMig t)).2]
    exact addedMig_applyMig t

/-! ## C6: defaults on a migrated table -/

theorem colIdx_append_absent (n : String) (cols rest : List Column)
    (h : ∀ c ∈ cols, c.name ≠ n) :
    colIdx n (cols ++ rest) = (colIdx n rest).map (· + cols.length) := by
  induction cols with
  | nil =>
      simp only [List.nil_append, List.length_nil]
      cases hrest : colIdx n rest <;> simp [hrest]
  | cons c cs ih =>
      have hc : ¬ c.name = n := h c (List.mem_cons_self _ _)
      have hcs : ∀ x ∈ cs, x.name ≠ n := fun x hx => h x (List.mem_cons_of_mem _ hx)
      have hstep : colIdx n ((c :: cs) ++ rest) = (colIdx n (cs ++ rest)).map (· + 1) := by
        simp [colIdx, hc]
      rw [hstep, ih hcs]
      cases hrest : colIdx n rest
      · rfl
      · simp only [hrest, Option.map_some', List.length_cons, Option.some.injEq]
        omega

/-- When both desired columns are missing, one run appends exactly the
two columns in order and reports both as added. -/
theorem applyMig_missing_both (t : Table)
    (hs : "storage_type" ∉ t.colNames) (hf : "file_size" ∉ t.colNames) :
    applyMig t = (t.addColumn "storage_type" Affinity.text
        (Value.strV "cloudinary")).addColumn "file_size" Affinity.integer Value.null ∧
    addedMig t = ["storage_type", "file_size"] := by
  have hf2 : "file_size" ∉
      (t.addColumn "storage_type" Affinity.text (Value.strV "cloudinary")).colNames := by
    rw [colNames_addColumn]
    simp [hf]
  constructor <;>
    simp [applyMig, addedMig, migrate_database, columns_to_add, List.foldl, migStep, hs, hf2]

/-- C6. Default backfill scenario: on a memories table missing both
columns, the migration reports added = [storage_type, file_size]; a row
then inserted with no storage_type value reads back "cloudinary"; and
every pre-existing row also reads back "cloudinary" in storage_type,
since the additive column operation applies the declared default
retroactively (no separate backfill update is needed). -/
theorem default_backfill_scenario (t : Table) (pairs : List (String × Value))
    (hs : "storage_type" ∉ t.colNames) (hf : "file_size" ∉ t.colNames)
    (hwf : ∀ r ∈ t.rows, r.length = t.cols.length)
    (hnp : findVal "storage_type" pairs = none) :
    addedMig t = ["storage_type", "file_size"] ∧
    ((applyMig t).insertPairs pairs).getCell t.rowCount "storage_type" =
      some (Value.strV "cloudinary") ∧
    (∀ i, i < t.rowCount →
      (applyMig t).getCell i "storage_type" = some (Value.strV "cloudinary")) := by
  obtain ⟨htab, hadd⟩ := applyMig_missing_both t hs hf
  have hnames : ∀ c ∈ t.cols, c.name ≠ "storage_type" := by
    intro c hc he
    exact hs (he ▸ List.mem_map_of_mem (·.name) hc)
  have hcols : (applyMig t).cols =
      t.cols ++ [⟨"storage_type", Affinity.text, Value.strV "cloudinary"⟩,
                 ⟨"file_size", Affinity.integer, Value.null⟩] := by
    rw [htab]
    simp [Table.addColumn]
  have hidx : colIdx "storage_type" (applyMig t).cols = some t.cols.length := by
    rw [hcols, colIdx_append_absent _ _ _ hnames]
    simp [colIdx]
  have hrows : (applyMig t).rows =
      t.rows.map (fun r => (r ++ [Value.strV "cloudinary"]) ++ [Value.null]) := by
    rw [htab]
    simp [Table.addColumn]
  have hrowlen : (applyMig t).rows.length = t.rowCount := by
    rw [hrows]
    simp [Table.rowCount]
  refine ⟨hadd, ?_, ?_⟩
  · unfold Table.insertPairs Table.getCell
    simp only [hidx]
    have hget : ((applyMig t).rows ++ [buildRow (applyMig t).cols pairs])[t.rowCount]? =
        some (buildRow (applyMig t).cols pairs) := by
      rw [← hrowlen]
      simp
    simp only [hget]
    have hcell : (buildRow (applyMig t).cols pairs)[t.cols.length]? =
        some (Value.strV "cloudinary") := by
      unfold buildRow
      rw [List.getElem?_map, hcols]
      rw [List.getElem?_append_right (by omega)]
      simp [hnp, applyAffinity]
    simp only [hcell]
  · intro i hi
    unfold Table.getCell
    simp only [hidx, hrows, List.getElem?_map]
    have hr : t.rows[i]? = some t.rows[i] :=
      List.getElem?_eq_getElem hi
    rw [hr]
    have hlen : t.rows[i].length = t.cols.length :=
      hwf _ (List.getElem_mem hi)
    simp only [Option.map_some']
    have hlt : t.cols.length < (t.rows[i] ++ [Value.strV "cloudinary"]).length := by
      simp [hlen]
    rw [List.getElem?_append, if_pos hlt, ← hlen]
    simp

/-- C6 witness: the pre-migration memories schema with one existing row,
then an insert without storage_type: both the old row and the new row
read back "cloudinary". -/
theorem default_backfill_scenario_witness :
    addedMig oldMemTable = ["storage_type", "file_size"] ∧
    ((applyMig oldMemTable).insertPairs samplePairs).getCell oldMemTable.rowCount
      "storage_type" = some (Value.strV "cloudinary") ∧
    (applyMig oldMemTable).getCell 0 "storage_type" = some (Value.strV "cloudinary") :=
  have h := default_backfill_scenario oldMemTable samplePairs
    (by decide) (by decide) (by decide) (by decide)
  ⟨h.1, h.2.1, h.2.2 0 (by decide)⟩

/-! ## C4: dump round-trip -/

theorem parseLit_renderLit (v : Value) : parseLit (renderLit v) = some (litVal v) := by
  cases v with
  | null => exact parseLit_renderLit_null
  | strV s => exact parseLit_renderLit_str s
  | intV i => exact parseLit_renderLit_int i

theorem applyAffinity_litVal (a : Affinity) (v : Value) (h : fitsAff a v) :
    applyAffinity a (litVal v) = v := by
  cases v with
  | null => cases a <;> rfl
  | strV s => exact h
  | intV i =>
      cases a with
      | text => exact absurd h (by simp [fitsAff, applyAffinity])
      | integer =>
          show applyAffinity Affinity.integer (Value.strV (String.mk (intRepr i))) = Value.intV i
          simp only [applyAffinity]
          have hp : parseInt (String.mk (intRepr i)).data = some i := parseInt_intRepr i
          rw [hp]

theorem parseLits_renderLit (row : List Value) :
    parseLits (row.map renderLit) = some (row.map litVal) := by
  induction row with
  | nil => rfl
  | cons v vs ih => simp [parseLits, parseLit_renderLit v, ih]

theorem rowFits_length : ∀ (cols : List Column) (row : List Value),
    rowFits cols row = true → cols.length = row.length := by
  intro cols
  induction cols with
  | nil => intro row h; cases row with
      | nil => rfl
      | cons v vs => simp [rowFits] at h
  | cons c cs ih =>
      intro row h
      cases row with
      | nil => simp [rowFits] at h
      | cons v vs =>
          rw [rowFits, Bool.and_eq_true] at h
          simp [ih vs h.2]

theorem buildRow_skip (cs : List Column) (p : String × Value) (rest : List (String × Value))
    (h : ∀ c ∈ cs, c.name ≠ p.1) :
    buildRow cs (p :: rest) = buildRow cs rest := by
  unfold buildRow
  apply List.map_congr_left
  intro c hc
  have hv : findVal c.name (p :: rest) = findVal c.name rest := by
    rw [show findVal c.name (p :: rest) =
        if p.1 = c.name then some p.2 else findVal c.name rest from rfl,
      if_neg (fun he => h c hc he.symm)]
  rw [hv]

theorem buildRow_roundTrip : ∀ (cols : List Column) (row : List Value),
    rowFits cols row = true → (cols.map (·.name)).Nodup →
    buildRow cols ((cols.map (·.name)).zip (row.map litVal)) = row := by
  intro cols
  induction cols with
  | nil =>
      intro row hf _
      cases row with
      | nil => rfl
      | cons v vs => simp [rowFits] at hf
  | cons c cs ih =>
      intro row hf hnd
      cases row with
      | nil => simp [rowFits] at hf
      | cons v vs =>
          rw [rowFits, Bool.and_eq_true] at hf
          have hfit : fitsAff c.affinity v := of_decide_eq_true hf.1
          simp only [List.map_cons] at hnd
          rw [List.nodup_cons] at hnd
          have hzip : ((c :: cs).map (·.name)).zip ((v :: vs).map litVal) =
              (c.name, litVal v) :: (cs.map (·.name)).zip (vs.map litVal) := rfl
          rw [hzip]
          have hhead : findVal c.name
              ((c.name, litVal v) :: (cs.map (·.name)).zip (vs.map litVal)) =
              some (litVal v) := by
            unfold findVal
            simp
          show applyAffinity c.affinity ((findVal c.name _).getD c.dflt) ::
              buildRow cs ((c.name, litVal v) :: (cs.map (·.name)).zip (vs.map litVal)) =
              v :: vs
          rw [hhead]
          have hskip : ∀ x ∈ cs, x.name ≠ (c.name, litVal v).1 := by
            intro x hx he
            have hmem : x.name ∈ List.map (fun x => x.name) cs :=
              List.mem_map_of_mem _ hx
            rw [he] at hmem
            exact hnd.1 hmem
          rw [buildRow_skip cs _ _ hskip]
          simp only [Option.getD_some]
          rw [applyAffinity_litVal c.affinity v hfit, ih vs hf.2 hnd.2]

theorem execInsert_messages (s : Store) (row : List Value)
    (hf : rowFits s.messages.cols row = true)
    (hnd : (s.messages.cols.map (·.name)).Nodup) :
    execInsert s "messages" (s.messages.cols.map (·.name)) (row.map renderLit) =
      some ⟨⟨s.messages.cols, s.messages.rows ++ [row]⟩, s.memories⟩ := by
  have hlen : (s.messages.cols.map (·.name)).length = (row.map renderLit).length := by
    simp [rowFits_length _ _ hf]
  unfold execInsert
  rw [if_neg (fun hne => hne hlen), parseLits_renderLit]
  simp only [reduceIte]
  unfold Table.insertPairs
  rw [buildRow_roundTrip s.messages.cols row hf hnd]

theorem execInsert_memories (s : Store) (row : List Value)
    (hf : rowFits s.memories.cols row = true)
    (hnd : (s.memories.cols.map (·.name)).Nodup) :
    execInsert s "memories" (s.memories.cols.map (·.name)) (row.map renderLit) =
      some ⟨s.messages, ⟨s.memories.cols, s.memories.rows ++ [row]⟩⟩ := by
  have hlen : (s.memories.cols.map (·.name)).length = (row.map renderLit).length := by
    simp [rowFits_length _ _ hf]
  unfold execInsert
  rw [if_neg (fun hne => hne hlen), parseLits_renderLit]
  simp only [reduceIte]
  rw [if_neg (show ¬ ("memories" = "messages") by decide)]
  unfold Table.insertPairs
  rw [buildRow_roundTrip s.memories.cols row hf hnd]

theorem runScript_msg_block (colsM : List Column) (rows : List (List Value)) :
    ∀ (committed : Store) (msgsRows : List (List Value)) (mem : Table),
    (∀ r ∈ rows, rowFits colsM r = true) →
    (colsM.map (·.name)).Nodup →
    runScript ⟨committed, ⟨⟨colsM, msgsRows⟩, mem⟩, true⟩
        (rows.map (rowToInsert "messages" colsM)) =
      (true, ⟨committed, ⟨⟨colsM, msgsRows ++ rows⟩, mem⟩, true⟩) := by
  induction rows with
  | nil =>
      intro committed msgsRows mem _ _
      simp [runScript]
  | cons r rs ih =>
      intro committed msgsRows mem hfits hnd
      have hr : rowFits colsM r = true := hfits r (List.mem_cons_self _ _)
      have hrs : ∀ x ∈ rs, rowFits colsM x = true :=
        fun x hx => hfits x (List.mem_cons_of_mem _ hx)
      have hexec : execInsert ⟨⟨colsM, msgsRows⟩, mem⟩ "messages"
          (colsM.map (·.name)) (r.map renderLit) =
          some ⟨⟨colsM, msgsRows ++ [r]⟩, mem⟩ :=
        execInsert_messages ⟨⟨colsM, msgsRows⟩, mem⟩ r hr hnd
      have hstmt : execStmt ⟨committed, ⟨⟨colsM, msgsRows⟩, mem⟩, true⟩
          (rowToInsert "messages" colsM r) =
          some ⟨committed, ⟨⟨colsM, msgsRows ++ [r]⟩, mem⟩, true⟩ := by
        simp only [rowToInsert, execStmt, hexec, reduceIte]
      simp only [List.map_cons, runScript, hstmt]
      rw [ih committed (msgsRows ++ [r]) mem hrs hnd, List.append_assoc]
      rfl

theorem runScript_mem_block (colsm : List Column) (rows : List (List Value)) :
    ∀ (committed : Store) (msgs : Table) (memRows : List (List Value)),
    (∀ r ∈ rows, rowFits colsm r = true) →
    (colsm.map (·.name)).Nodup →
    runScript ⟨committed, ⟨msgs, ⟨colsm, memRows⟩⟩, true⟩
        (rows.map (rowToInsert "memories" colsm)) =
      (true, ⟨committed, ⟨msgs, ⟨colsm, memRows ++ rows⟩⟩, true⟩) := by
  induction rows with
  | nil =>
      intro committed msgs memRows _ _
      simp [runScript]
  | cons r rs ih =>
      intro committed msgs memRows hfits hnd
      have hr : rowFits colsm r = true := hfits r (List.mem_cons_self _ _)
      have hrs : ∀ x ∈ rs, rowFits colsm x = true :=
        fun x hx => hfits x (List.mem_cons_of_mem _ hx)
      have hexec : execInsert ⟨msgs, ⟨colsm, memRows⟩⟩ "memories"
          (colsm.map (·.name)) (r.map renderLit) =
          some ⟨msgs, ⟨colsm, memRows ++ [r]⟩⟩ :=
        execInsert_memories ⟨msgs, ⟨colsm, memRows⟩⟩ r hr hnd
      have hstmt : execStmt ⟨committed, ⟨msgs, ⟨colsm, memRows⟩⟩, true⟩
          (rowToInsert "memories" colsm r) =
          some ⟨committed, ⟨msgs, ⟨colsm, memRows ++ [r]⟩⟩, true⟩ := by
        simp only [rowToInsert, execStmt, hexec, reduceIte]
      simp only [List.map_cons, runScript, hstmt]
      rw [ih committed msgs (memRows ++ [r]) hrs hnd, List.append_assoc]
      rfl

/-- C4. Restore round-trip: a dump created by create_backup from a
well-formed store, replayed into a freshly initialized empty store with
the same schema, succeeds and reproduces the rows exactly: the restored
tables hold a permutation of the original rows (the created_at-descending
dump order), so row counts and every field value, including embedded
single quotes and the NULL versus empty-string distinction, match, and
restored_count is N + M. -/
theorem restore_roundTrip (src : Store) (fs : FS) (b : BackupRestoration)
    (hwfM : src.messages.wf) (hwfm : src.memories.wf)
    (hex : b.backup_exists = true)
    (hfs : fs b.backup_path = some (createBackupScript src)) :
    b.restore fs (emptyOf src) =
      (RestoreOutcome.restored,
       { b with restored_count := src.messages.rowCount + src.memories.rowCount },
       ⟨⟨src.messages.cols, orderByCreatedAtDesc src.messages⟩,
        ⟨src.memories.cols, orderByCreatedAtDesc src.memories⟩⟩) ∧
    (orderByCreatedAtDesc src.messages).Perm src.messages.rows ∧
    (orderByCreatedAtDesc src.memories).Perm src.memories.rows ∧
    (b.restore fs (emptyOf src)).2.2.messages.rowCount = src.messages.rowCount ∧
    (b.restore fs (emptyOf src)).2.2.memories.rowCount = src.memories.rowCount := by
  have hpermM : (orderByCreatedAtDesc src.messages).Perm src.messages.rows := by
    unfold orderByCreatedAtDesc
    exact List.mergeSort_perm _ _
  have hpermm : (orderByCreatedAtDesc src.memories).Perm src.memories.rows := by
    unfold orderByCreatedAtDesc
    exact List.mergeSort_perm _ _
  have hfitsM : ∀ r ∈ orderByCreatedAtDesc src.messages,
      rowFits src.messages.cols r = true :=
    fun r hr => hwfM.2 r (hpermM.mem_iff.mp hr)
  have hfitsm : ∀ r ∈ orderByCreatedAtDesc src.memories,
      rowFits src.memories.cols r = true :=
    fun r hr => hwfm.2 r (hpermm.mem_iff.mp hr)
  have hA := runScript_msg_block src.messages.cols (orderByCreatedAtDesc src.messages)
    (emptyOf src) [] ⟨src.memories.cols, []⟩ hfitsM hwfM.1
  rw [List.nil_append] at hA
  have hB := runScript_mem_block src.memories.cols (orderByCreatedAtDesc src.memories)
    (emptyOf src) ⟨src.messages.cols, orderByCreatedAtDesc src.messages⟩ [] hfitsm hwfm.1
  rw [List.nil_append] at hB
  have hAB : runScript ⟨emptyOf src, ⟨⟨src.messages.cols, []⟩, ⟨src.memories.cols, []⟩⟩, true⟩
      ((orderByCreatedAtDesc src.messages).map (rowToInsert "messages" src.messages.cols) ++
       (orderByCreatedAtDesc src.memories).map (rowToInsert "memories" src.memories.cols)) =
      (true, ⟨emptyOf src,
        ⟨⟨src.messages.cols, orderByCreatedAtDesc src.messages⟩,
         ⟨src.memories.cols, orderByCreatedAtDesc src.memories⟩⟩, true⟩) := by
    rw [runScript_append, hA, if_pos rfl]
    exact hB
  have hfull : runScript ⟨emptyOf src, emptyOf src, false⟩ (createBackupScript src) =
      (true, ⟨⟨⟨src.messages.cols, orderByCreatedAtDesc src.messages⟩,
               ⟨src.memories.cols, orderByCreatedAtDesc src.memories⟩⟩,
              ⟨⟨src.messages.cols, orderByCreatedAtDesc src.messages⟩,
               ⟨src.memories.cols, orderByCreatedAtDesc src.memories⟩⟩, false⟩) := by
    have hbegin : runScript ⟨emptyOf src, emptyOf src, false⟩ (createBackupScript src) =
        runScript ⟨emptyOf src, ⟨⟨src.messages.cols, []⟩, ⟨src.memories.cols, []⟩⟩, true⟩
          ((orderByCreatedAtDesc src.messages).map (rowToInsert "messages" src.messages.cols) ++
           (orderByCreatedAtDesc src.memories).map (rowToInsert "memories" src.memories.cols) ++
           [Stmt.commitTxn]) := rfl
    rw [hbegin, runScript_append, hAB, if_pos rfl]
    rfl
  have hcond : ¬ ((!b.backup_exists) = true) := by simp [hex]
  have hcntM : (orderByCreatedAtDesc src.messages).length = src.messages.rowCount :=
    hpermM.length_eq
  have hcntm : (orderByCreatedAtDesc src.memories).length = src.memories.rowCount :=
    hpermm.length_eq
  have hres : b.restore fs (emptyOf src) =
      (RestoreOutcome.restored,
       { b with restored_count := src.messages.rowCount + src.memories.rowCount },
       ⟨⟨src.messages.cols, orderByCreatedAtDesc src.messages⟩,
        ⟨src.memories.cols, orderByCreatedAtDesc src.memories⟩⟩) := by
    unfold BackupRestoration.restore
    rw [if_neg hcond, hfs]
    simp only [hfull]
    show (RestoreOutcome.restored,
      { b with restored_count :=
          (orderByCreatedAtDesc src.messages).length + (orderByCreatedAtDesc src.memories).length },
      (⟨⟨src.messages.cols, orderByCreatedAtDesc src.messages⟩,
        ⟨src.memories.cols, orderByCreatedAtDesc src.memories⟩⟩ : Store)) = _
    rw [hcntM, hcntm]
  refine ⟨hres, hpermM, hpermm, ?_, ?_⟩
  · rw [hres]
    exact hcntM
  · rw [hres]
    exact hcntm

/-- C4 witness: a store whose messages row embeds a single quote and a
NULL, and whose memories row has a NULL optional field and an integer
file size: the dump of that store restores into a fresh empty store with
the same schema, reproducing every field. -/
theorem restore_roundTrip_witness :
    sampleSrc.messages.wf ∧ sampleSrc.memories.wf ∧
    (BackupRestoration.mkState (fsWith "backup.sql" (createBackupScript sampleSrc))
        "celebration.db" "backup.sql").restore
        (fsWith "backup.sql" (createBackupScript sampleSrc)) (emptyOf sampleSrc) =
      (RestoreOutcome.restored,
       { BackupRestoration.mkState (fsWith "backup.sql" (createBackupScript sampleSrc))
           "celebration.db" "backup.sql" with
         restored_count := sampleSrc.messages.rowCount + sampleSrc.memories.rowCount },
       ⟨⟨sampleSrc.messages.cols, orderByCreatedAtDesc sampleSrc.messages⟩,
        ⟨sampleSrc.memories.cols, orderByCreatedAtDesc sampleSrc.memories⟩⟩) :=
  have hwfM : sampleSrc.messages.wf := ⟨by decide, by decide⟩
  have hwfm : sampleSrc.memories.wf := ⟨by decide, by decide⟩
  ⟨hwfM, hwfm,
   (restore_roundTrip sampleSrc (fsWith "backup.sql" (createBackupScript sampleSrc))
     (BackupRestoration.mkState (fsWith "backup.sql" (createBackupScript sampleSrc))
       "celebration.db" "backup.sql")
     hwfM hwfm (by decide) (by simp [fsWith, BackupRestoration.mkState])).1⟩
